import Mathlib

/-!
# Verification of the DomainEx SSR dispatcher

Shallow embedding of the render dispatch and caching pipeline of the
DomainEx server-side-rendering engine (`src/examples/domainex.js`, with the
older variant `src/domainex.js` modelled where a claim refers to it), and
proofs of the specified properties: cache-fingerprint determinism, cache
TTL behaviour, framework detection, the plain-adapter string contract,
template token substitution, error handling for missing components, and
registry replacement on (re)load.

JavaScript machine integers do not occur in the modelled code paths;
timestamps (`Date.now()`) are modelled as `Int`, JSON-able numbers as `Int`
(the modelled property bags contain only integral numbers).  JavaScript
strings are modelled as `List Char` / `String`; the template-substitution
primitives implement the ECMAScript `GetSubstitution` semantics of
`String.prototype.replace` / `replaceAll` (`$$`, `$&`, backtick and quote
forms) because the source uses string/regex `replace` with data-dependent
replacement strings.
-/

namespace DomainEx

/-- Dollar sign, significant in ECMAScript replacement patterns. -/
def dollarC : Char := Char.ofNat 36

/-- Backtick, the `before the match` replacement pattern marker. -/
def backtickC : Char := Char.ofNat 96

/-- Single quote, the `after the match` replacement pattern marker. -/
def quoteC : Char := Char.ofNat 39

/-- Double quote. -/
def dquoteC : Char := Char.ofNat 34

/-- Backslash. -/
def backslashC : Char := Char.ofNat 92

/-- Left brace (the template tokens are brace-delimited). -/
def lbraceC : Char := Char.ofNat 123

/-- Right brace. -/
def rbraceC : Char := Char.ofNat 125

/-!
## JavaScript values used as property bags

A `JsonV` is a JSON-serialisable JavaScript value as passed in a property
bag: `undefined`, `null`, booleans, (integral) numbers, strings, arrays
and plain objects.  Objects are ordered key/value lists, reflecting the
insertion order that `JSON.stringify` observes; JavaScript objects never
contain a duplicate key, which theorems assume as a `Nodup` hypothesis
where it matters.
-/

inductive JsonV : Type where
  | undefV : JsonV
  | null : JsonV
  | bool : Bool → JsonV
  | num : Int → JsonV
  | str : String → JsonV
  | arr : List JsonV → JsonV
  | obj : List (String × JsonV) → JsonV

/-- First binding of key `k` in an association list (JS property access;
JS objects have unique keys, so first = only). -/
def findVal (k : String) : List (String × JsonV) → Option JsonV
  | [] => none
  | (k', v) :: t => if k = k' then some v else findVal k t

/-- JavaScript truthiness of a `JsonV` (`undefined`, `null`, `false`, `0`
and `""` are falsy; all objects and arrays are truthy). -/
def jsTruthy : JsonV → Bool
  | .undefV => false
  | .null => false
  | .bool b => b
  | .num n => n != 0
  | .str s => s ≠ ""
  | .arr _ => true
  | .obj _ => true

/-- Hex digit (lower case), used for JSON `\u00XX` escapes and hash hex. -/
def hexDigit (n : Nat) : Char :=
  if n < 10 then Char.ofNat (48 + n) else Char.ofNat (87 + n)

/-- JSON escaping of a single character, as performed by `JSON.stringify`
on string values. -/
def jsonEscChar (c : Char) : List Char :=
  if c = dquoteC then [backslashC, dquoteC]
  else if c = backslashC then [backslashC, backslashC]
  else if c = Char.ofNat 10 then [backslashC, Char.ofNat 110]
  else if c = Char.ofNat 13 then [backslashC, Char.ofNat 114]
  else if c = Char.ofNat 9 then [backslashC, Char.ofNat 116]
  else if c = Char.ofNat 8 then [backslashC, Char.ofNat 98]
  else if c = Char.ofNat 12 then [backslashC, Char.ofNat 102]
  else if c.toNat < 32 then
    [backslashC, Char.ofNat 117, Char.ofNat 48, Char.ofNat 48,
      hexDigit (c.toNat / 16), hexDigit (c.toNat % 16)]
  else [c]

/-- The `JSON.stringify` of a string value: quoted and escaped. -/
def jsonQuote (s : String) : String :=
  String.mk (dquoteC :: s.data.foldr (fun c acc => jsonEscChar c ++ acc) [] ++ [dquoteC])

mutual

/-- The `JSON.stringify` of a value.  A top-level `undefined` is rendered as
`"undefined"`: `JSON.stringify(undefined)` is `undefined`, and every use
in the source coerces the result in a template literal. -/
def stringify : JsonV → String
  | .undefV => "undefined"
  | .null => "null"
  | .bool true => "true"
  | .bool false => "false"
  | .num n => toString n
  | .str s => jsonQuote s
  | .arr xs => "[" ++ String.intercalate "," (arrParts xs) ++ "]"
  | .obj l => "\x7b" ++ String.intercalate "," (objParts l) ++ "\x7d"

/-- Array elements: `undefined` serialises as `null` inside an array. -/
def arrParts : List JsonV → List String
  | [] => []
  | v :: t =>
    (match v with
      | .undefV => "null"
      | v' => stringify v') :: arrParts t

/-- Object members: a member whose value is `undefined` is skipped. -/
def objParts : List (String × JsonV) → List String
  | [] => []
  | (k, v) :: t =>
    match v with
    | .undefV => objParts t
    | v' => (jsonQuote k ++ ":" ++ stringify v') :: objParts t

end

/-- Lexicographic comparison of character lists by code point, the order
JavaScript's default `Array.prototype.sort` comparator induces on the
(BMP) strings occurring as property keys. -/
def lexLe : List Char → List Char → Bool
  | [], _ => true
  | _ :: _, [] => false
  | a :: as, b :: bs => if a = b then lexLe as bs else decide (a.toNat < b.toNat)

/-- The sort order of `Object.keys(obj).sort()` as a relation on keys. -/
def strLeR (a b : String) : Prop := lexLe a.data b.data = true

instance : DecidableRel strLeR := fun a b => by
  unfold strLeR
  infer_instance

/-- The `Object.keys(obj).sort()` followed by re-insertion, as performed by
`_stableStringify`: the (top-level) keys in ascending string order, each
paired with its value. -/
def sortPairs (l : List (String × JsonV)) : List (String × JsonV) :=
  (List.insertionSort strLeR (l.map Prod.fst)).map
    (fun k => (k, (findVal k l).getD .undefV))

/-- The `Object.keys(arr).sort()` for an array: the index strings in
JavaScript's default (lexicographic) sort order, re-packed as an object. -/
def arrayAsSortedPairs (xs : List JsonV) : List (String × JsonV) :=
  (List.insertionSort strLeR ((List.range xs.length).map toString)).map
    (fun k => (k, xs.getD ((k.toNat?).getD 0) .undefV))

/--
The `_stableStringify` from `src/examples/domainex.js`:

```js
_stableStringify(obj) {
  if (!obj || typeof obj !== "object") return JSON.stringify(obj);
  const keys = Object.keys(obj).sort();
  const out = {};
  for (const k of keys) out[k] = obj[k];
  return JSON.stringify(out);
}
```

Only objects and arrays take the key-sorting path; note that sorting is
applied to the **top-level** keys only — nested values are serialised by
`JSON.stringify` in insertion order.
-/
def stableStringify : JsonV → String
  | .obj l => "\x7b" ++ String.intercalate "," (objParts (sortPairs l)) ++ "\x7d"
  | .arr xs => "\x7b" ++ String.intercalate "," (objParts (arrayAsSortedPairs xs)) ++ "\x7d"
  | v => stringify v

/-!
## SHA-1 (the `crypto.createHash("sha1")` digest used by `_cacheKey`)

A faithful executable model of the external SHA-1 digest, operating on
the UTF-8 bytes of the input string and producing the lowercase hex
digest, exactly as `crypto.createHash("sha1").update(raw).digest("hex")`.
-/

/-- Truncation to a 32-bit word. -/
def w32 (n : Nat) : Nat := n % 4294967296

/-- A 32-bit left rotation. -/
def rotl (k n : Nat) : Nat := w32 ((n <<< k) ||| (n >>> (32 - k)))

/-- UTF-8 encoding of one character. -/
def utf8Char (c : Char) : List Nat :=
  let n := c.toNat
  if n < 128 then [n]
  else if n < 2048 then [192 + n / 64, 128 + n % 64]
  else if n < 65536 then [224 + n / 4096, 128 + (n / 64) % 64, 128 + n % 64]
  else [240 + n / 262144, 128 + (n / 4096) % 64, 128 + (n / 64) % 64, 128 + n % 64]

/-- UTF-8 bytes of a string. -/
def utf8Bytes (s : String) : List Nat :=
  s.data.foldr (fun c acc => utf8Char c ++ acc) []

/-- Big-endian 8-byte encoding of a (64-bit) natural. -/
def be8 (n : Nat) : List Nat :=
  (List.range 8).map (fun i => (n >>> ((7 - i) * 8)) &&& 255)

/-- SHA-1 message padding: `0x80`, zeros to 56 mod 64, 64-bit bit length. -/
def sha1pad (msg : List Nat) : List Nat :=
  let z := (119 - msg.length % 64) % 64
  msg ++ [128] ++ List.replicate z 0 ++ be8 (msg.length * 8)

/-- Split a byte list into 64-byte chunks (`fuel` bounds the recursion
depth; it is instantiated with the list length, which always suffices). -/
def chunks64F : Nat → List Nat → List (List Nat)
  | _, [] => []
  | 0, _ :: _ => []
  | fuel + 1, a :: t => ((a :: t).take 64) :: chunks64F fuel ((a :: t).drop 64)

/-- Split a byte list into 64-byte chunks. -/
def chunks64 (l : List Nat) : List (List Nat) :=
  chunks64F l.length l

/-- Big-endian 32-bit words from bytes. -/
def bytesToWords : List Nat → List Nat
  | a :: b :: c :: d :: rest => (((a * 256 + b) * 256 + c) * 256 + d) :: bytesToWords rest
  | _ => []

/-- Expansion of the 16 message words to the 80-word schedule. -/
def sha1Schedule (ws : List Nat) : List Nat :=
  (List.range 64).foldl
    (fun acc _ =>
      let n := acc.length
      acc ++ [rotl 1 ((acc.getD (n - 3) 0) ^^^ (acc.getD (n - 8) 0) ^^^
        (acc.getD (n - 14) 0) ^^^ (acc.getD (n - 16) 0))])
    ws

/-- The SHA-1 round function. -/
def sha1F (t b c d : Nat) : Nat :=
  if t < 20 then (b &&& c) ||| ((b ^^^ 4294967295) &&& d)
  else if t < 40 then b ^^^ c ^^^ d
  else if t < 60 then (b &&& c) ||| (b &&& d) ||| (c &&& d)
  else b ^^^ c ^^^ d

/-- The SHA-1 round constants. -/
def sha1K (t : Nat) : Nat :=
  if t < 20 then 1518500249
  else if t < 40 then 1859775393
  else if t < 60 then 2400959708
  else 3395469782

/-- One 64-byte chunk folded into the running hash state. -/
def sha1Chunk (h : Nat × Nat × Nat × Nat × Nat) (chunk : List Nat) :
    Nat × Nat × Nat × Nat × Nat :=
  let W := sha1Schedule (bytesToWords chunk)
  let (h0, h1, h2, h3, h4) := h
  let s := (List.range 80).foldl
    (fun st t =>
      let (a, b, c, d, e) := st
      let temp := w32 (rotl 5 a + sha1F t b c d + e + sha1K t + W.getD t 0)
      (temp, a, rotl 30 b, c, d))
    (h0, h1, h2, h3, h4)
  let (a, b, c, d, e) := s
  (w32 (h0 + a), w32 (h1 + b), w32 (h2 + c), w32 (h3 + d), w32 (h4 + e))

/-- SHA-1 digest of a byte list, as five 32-bit words. -/
def sha1Words (msg : List Nat) : List Nat :=
  let (h0, h1, h2, h3, h4) :=
    (chunks64 (sha1pad msg)).foldl sha1Chunk
      (1732584193, 4023233417, 2562383102, 271733878, 3285377520)
  [h0, h1, h2, h3, h4]

/-- Eight lowercase hex digits of a 32-bit word. -/
def toHex8 (n : Nat) : List Char :=
  (List.range 8).map (fun i => hexDigit ((n >>> ((7 - i) * 4)) &&& 15))

/-- Lowercase hex SHA-1 digest of a string's UTF-8 bytes. -/
def sha1Hex (s : String) : String :=
  String.mk ((sha1Words (utf8Bytes s)).foldr (fun w acc => toHex8 w ++ acc) [])

/--
The `_cacheKey` from `src/examples/domainex.js`:

```js
_cacheKey(componentName, props) {
  const raw = `${componentName}|${this._stableStringify(props)}`;
  return crypto.createHash("sha1").update(raw).digest("hex");
}
```
-/
def cacheKey (componentName : String) (props : JsonV) : String :=
  sha1Hex (componentName ++ "|" ++ stableStringify props)

/-!
## ECMAScript string replacement

`String.prototype.replace` (string pattern: first occurrence) and the
`/pat/g` regex / `replaceAll` form (every occurrence, left to right,
non-overlapping) both pass the replacement string through the
`GetSubstitution` algorithm: `$$` produces `$`, `$&` the matched text,
`` $` `` the part of the subject before the match, `$'` the part after it;
with no capture groups every other `$` form is literal.  The source uses
these primitives for all template substitution, so the model implements
them exactly.
-/

/-- ECMAScript `GetSubstitution` for a pattern with no capture groups:
`rep` is the replacement text, `matched` the matched substring, `before`
and `after` the parts of the subject surrounding the match. -/
def getSubst (rep : List Char) (matched before after : List Char) : List Char :=
  match rep with
  | [] => []
  | c :: rest =>
    if c = dollarC then
      match rest with
      | [] => [c]
      | d :: rest2 =>
        if d = dollarC then dollarC :: getSubst rest2 matched before after
        else if d = Char.ofNat 38 then matched ++ getSubst rest2 matched before after
        else if d = backtickC then before ++ getSubst rest2 matched before after
        else if d = quoteC then after ++ getSubst rest2 matched before after
        else c :: d :: getSubst rest2 matched before after
    else c :: getSubst rest matched before after

/-- Index of the first occurrence of `pat` in the subject, if any. -/
def listFindAux (pat : List Char) : List Char → Nat → Option Nat
  | [], i => if pat.isPrefixOf [] then some i else none
  | c :: t, i => if pat.isPrefixOf (c :: t) then some i else listFindAux pat t (i + 1)

/-- Index of the first occurrence of `pat` in `s`, if any. -/
def listFind (pat s : List Char) : Option Nat :=
  listFindAux pat s 0

/-- The `String.prototype.replace` with a string pattern: substitute the first
occurrence only, applying `GetSubstitution` to the replacement. -/
def replaceFirstL (s pat rep : List Char) : List Char :=
  match listFind pat s with
  | none => s
  | some i =>
    s.take i ++ getSubst rep pat (s.take i) (s.drop (i + pat.length)) ++
      s.drop (i + pat.length)

/-- The `String.prototype.replaceAll` / a `/pat/g` regex replace with a literal
pattern: every non-overlapping occurrence, left to right, each processed
through `GetSubstitution` against the original subject. `done` is the part
of the subject already scanned, `rem` the rest. -/
def replaceAllAux (pat rep : List Char) : Nat → List Char → List Char → List Char
  | _, _, [] => []
  | 0, _, c :: t => c :: t
  | fuel + 1, done, c :: t =>
    if pat ≠ [] ∧ pat.isPrefixOf (c :: t) then
      getSubst rep pat done (t.drop (pat.length - 1)) ++
        replaceAllAux pat rep fuel (done ++ pat) (t.drop (pat.length - 1))
    else c :: replaceAllAux pat rep fuel (done ++ [c]) t

/-- Global replacement of a literal pattern (`replaceAllAux` is run with
fuel equal to the subject length, which always suffices since each step
consumes at least one subject character). -/
def replaceAllL (s pat rep : List Char) : List Char :=
  replaceAllAux pat rep s.length [] s

/-!
## `_escapeHtml` and JavaScript string coercion
-/

mutual

/-- JavaScript `String(v)` coercion of a property value (`Array.prototype.
toString` joins elements with commas, rendering `null`/`undefined` as the
empty string; plain objects print as `[object Object]`). -/
def jsToString : JsonV → String
  | .undefV => "undefined"
  | .null => "null"
  | .bool true => "true"
  | .bool false => "false"
  | .num n => toString n
  | .str s => s
  | .arr xs => String.intercalate "," (arrToStringParts xs)
  | .obj _ => "[object Object]"

/-- Elements of `Array.prototype.toString`. -/
def arrToStringParts : List JsonV → List String
  | [] => []
  | v :: t =>
    (match v with
      | .undefV => ""
      | .null => ""
      | v' => jsToString v') :: arrToStringParts t

end

/--
The `_escapeHtml` from `src/examples/domainex.js`: coerce to string, then the
five sequential `replaceAll` passes (`&` first, then `<`, `>`, `"`, `'`).
-/
def escapeHtmlL (s : List Char) : List Char :=
  let s1 := replaceAllL s [Char.ofNat 38] "&amp;".data
  let s2 := replaceAllL s1 [Char.ofNat 60] "&lt;".data
  let s3 := replaceAllL s2 [Char.ofNat 62] "&gt;".data
  let s4 := replaceAllL s3 [dquoteC] "&quot;".data
  replaceAllL s4 [quoteC] ("&#039" ++ ";").data

/-- The `_escapeHtml` on a JavaScript value (the source applies `String(str)`
before escaping). -/
def escapeHtml (v : JsonV) : List Char :=
  escapeHtmlL (jsToString v).data

/-!
## `_applyTemplate`

```js
_applyTemplate(content, props) {
  let html = this.template;
  html = html.replace("{{content}}", content);
  html = html.replace(/{{title}}/g, this._escapeHtml(props.title || "DomainEx SSR"));
  html = html.replace(/{{description}}/g,
    this._escapeHtml(props.description || "Server-side rendered with DomainEx"));
  const safeProps = JSON.stringify(props).replace(/</g, "\\u003c");
  const propsScript = `<script>window.__DOMAINEX_PROPS__=${safeProps};</script>`;
  html = html.replace("</head>", `${propsScript}\n</head>`);
  return html;
}
```
-/

/-- The `{{content}}` token. -/
def contentTok : List Char :=
  [lbraceC, lbraceC] ++ "content".data ++ [rbraceC, rbraceC]

/-- The `{{title}}` token. -/
def titleTok : List Char :=
  [lbraceC, lbraceC] ++ "title".data ++ [rbraceC, rbraceC]

/-- The `{{description}}` token. -/
def descTok : List Char :=
  [lbraceC, lbraceC] ++ "description".data ++ [rbraceC, rbraceC]

/-- The `</head>` injection anchor. -/
def headTok : List Char := "</head>".data

/-- Property access `props.title` etc.: member of an object, `undefined`
otherwise. -/
def getField (props : JsonV) (k : String) : JsonV :=
  match props with
  | .obj l => (findVal k l).getD .undefV
  | _ => .undefV

/-- JavaScript `a || b`. -/
def jsOr (a b : JsonV) : JsonV := if jsTruthy a then a else b

/-- The escaped replacement value for `{{title}}`:
`_escapeHtml(props.title || "DomainEx SSR")`. -/
def titleValue (props : JsonV) : List Char :=
  escapeHtml (jsOr (getField props "title") (.str "DomainEx SSR"))

/-- The escaped replacement value for `{{description}}`. -/
def descValue (props : JsonV) : List Char :=
  escapeHtml (jsOr (getField props "description") (.str "Server-side rendered with DomainEx"))

/-- The `JSON.stringify(props).replace(/</g, "\\u003c")`. -/
def safeProps (props : JsonV) : List Char :=
  replaceAllL (stringify props).data [Char.ofNat 60] (backslashC :: "u003c".data)

/-- The hydration script tag carrying the serialised property bag. -/
def propsScript (props : JsonV) : List Char :=
  "<script>window.__DOMAINEX_PROPS__=".data ++ safeProps props ++ ";</script>".data

/-- Step (a): first `{{content}}` occurrence replaced with the fragment. -/
def contentStep (template frag : List Char) : List Char :=
  replaceFirstL template contentTok frag

/-- Step (b): every `{{title}}` occurrence replaced with the escaped title. -/
def titleStep (s : List Char) (props : JsonV) : List Char :=
  replaceAllL s titleTok (titleValue props)

/-- Step (c): every `{{description}}` occurrence replaced. -/
def descStep (s : List Char) (props : JsonV) : List Char :=
  replaceAllL s descTok (descValue props)

/-- Step (d): the hydration script inserted before the first `</head>`. -/
def headStep (s : List Char) (props : JsonV) : List Char :=
  replaceFirstL s headTok (propsScript props ++ Char.ofNat 10 :: headTok)

/-- The `_applyTemplate`, start to finish, on character lists. -/
def applyTemplateL (template frag : List Char) (props : JsonV) : List Char :=
  headStep (descStep (titleStep (contentStep template frag) props) props) props

/-- The `_applyTemplate` on strings. -/
def applyTemplate (template frag : String) (props : JsonV) : String :=
  String.mk (applyTemplateL template.data frag.data props)

/-!
## Loaded component artifacts and framework detection

A loaded module (the value of `require(filePath)` / `module.exports`) as
far as the detector, the unwrapping step and the plain adapter observe it:
a callable (with its `name` and `displayName` strings, empty when absent,
as produced by `mod.name || ""`), an object with ordered members, or a
primitive (with its truthiness).  A callable carries its behaviour as a
function from the property bag to a `CompRet` (the value it returns,
possibly a promise).
-/

/-- What a (settled) JavaScript value looks like to the plain adapter's
`typeof html !== "string"` check. -/
inductive JsOut : Type where
  | sstr : String → JsOut
  | snum : Int → JsOut
  | sbool : Bool → JsOut
  | snull : JsOut
  | sundefV : JsOut
  | sobj : JsOut
  | sfun : JsOut
  deriving DecidableEq

/-- What invoking a component function yields: a plain value, or a promise
that settles to a value (`await` resolves the latter, and passes the
former through unchanged). -/
inductive CompRet : Type where
  | ret : JsOut → CompRet
  | retPromise : JsOut → CompRet

/-- The `await v`. -/
def settle : CompRet → JsOut
  | .ret v => v
  | .retPromise v => v

/-- A loaded module artifact. -/
inductive JsArt : Type where
  | jfn : String → String → (JsonV → CompRet) → JsArt
  | jobj : List (String × JsArt) → JsArt
  | jprim : Bool → JsArt

/-- Member lookup on an object artifact. -/
def memberOf (k : String) : List (String × JsArt) → Option JsArt
  | [] => none
  | (k', v) :: t => if k = k' then some v else memberOf k t

/-- Truthiness of an artifact value (functions and objects are truthy). -/
def artTruthy : JsArt → Bool
  | .jfn _ _ _ => true
  | .jobj _ => true
  | .jprim b => b

/-- The renderer variants. -/
inductive Framework : Type where
  | react : Framework
  | vue : Framework
  | vanilla : Framework
  deriving DecidableEq

/-- The `/^[A-Z]/.test(s)`: does the string start with an ASCII capital? -/
def startsUpper (s : String) : Bool :=
  match s.data with
  | [] => false
  | c :: _ => Char.ofNat 65 ≤ c && c ≤ Char.ofNat 90

/-- The `/^[A-Z]/.test(mod.name || "") || /^[A-Z]/.test(mod.displayName || "")`. -/
def looksLikeReact (name displayName : String) : Bool :=
  startsUpper name || startsUpper displayName

/--
The `_detectFramework` from `src/examples/domainex.js`:

1. an object with a callable `render` member is Vue;
2. else a callable module is React exactly when its name or display name
   starts with a capital letter, otherwise vanilla;
3. else an object with a callable `default` member is classified by the
   same capital-letter test on that member;
4. otherwise vanilla.
-/
def detectFramework (m : JsArt) : Framework :=
  match m with
  | .jobj fields =>
    match memberOf "render" fields with
    | some (.jfn _ _ _) => .vue
    | _ =>
      match memberOf "default" fields with
      | some (.jfn n d _) => if looksLikeReact n d then .react else .vanilla
      | _ => .vanilla
  | .jfn n d _ => if looksLikeReact n d then .react else .vanilla
  | .jprim _ => .vanilla

/-- The `_unwrapDefault`: an object with a truthy `default` member unwraps to
that member (one level); everything else is used as-is. -/
def unwrapDefault (m : JsArt) : JsArt :=
  match m with
  | .jobj fields =>
    match memberOf "default" fields with
    | some v => if artTruthy v then v else m
    | none => m
  | _ => m

/-- The error taxonomy of the dispatcher (thrown `Error`s in the source). -/
inductive DError : Type where
  | componentNotFound : String → DError
  | vanillaNotFunction : DError
  | typeContract : DError
  | noJsFiles : DError
  deriving DecidableEq

/--
The `_renderVanilla` from `src/examples/domainex.js`:

```js
async _renderVanilla(mod, props) {
  const fn = this._unwrapDefault(mod);
  if (typeof fn !== "function") {
    throw new Error("[DomainEx] Vanilla component must export a function.");
  }
  const html = await fn(props);
  if (typeof html !== "string") {
    throw new Error("[DomainEx] Vanilla component must return a string of HTML.");
  }
  return html;
}
```

The string check is applied to the awaited (settled) value.
-/
def renderVanilla (m : JsArt) (props : JsonV) : Except DError String :=
  match unwrapDefault m with
  | .jfn _ _ body =>
    match settle (body props) with
    | .sstr s => .ok s
    | _ => .error .typeContract
  | _ => .error .vanillaNotFunction

/--
The `_renderVanillaComponent` from the older `src/domainex.js` (lines 278-301):
the evaluated `module.exports` is required to be a function, but its result
is returned **without any string check** (the surrounding `async` function
settles a returned promise):

```js
const renderFunction = module.exports;
if (typeof renderFunction === 'function') {
  return renderFunction(props);
} else {
  throw new Error('Vanilla component must export a render function');
}
```
-/
def renderVanillaComponentOld (m : JsArt) (props : JsonV) : Except DError JsOut :=
  match m with
  | .jfn _ _ body => .ok (settle (body props))
  | _ => .error .vanillaNotFunction

/-!
## The dispatcher (`render`) and the cache

State of an initialised engine: options, loaded template, component
registry (`componentMap`) and cache, both `Map`s modelled as ordered
association lists with `Map.set` semantics.  `Date.now()` readings are
explicit `Int` parameters (`now` for the TTL check on line 59, `nowStore`
for the store on line 86).  The external React/Vue server renderers are a
parameter `extRender`; a hot-reload directory rescan result is the
parameter `reloaded`.
-/

/-- A cache entry `{ html, ts }`. -/
structure CacheEntry : Type where
  html : String
  ts : Int
  deriving DecidableEq

/-- A registry entry `{ module, framework }`. -/
structure RegEntry : Type where
  module : JsArt
  framework : Framework

/-- Engine options (the fields `render` reads). -/
structure Options : Type where
  cache : Bool
  cacheMaxAge : Int
  hotReload : Bool

/-- Initialised engine state. -/
structure EngineSt : Type where
  options : Options
  template : String
  componentMap : List (String × RegEntry)
  cache : List (String × CacheEntry)

/-- The `Map.set`: overwrite the existing binding in place, else append. -/
def mapSet {α : Type} (m : List (String × α)) (k : String) (v : α) :
    List (String × α) :=
  if m.any (fun p => p.1 == k) then
    m.map (fun p => if p.1 == k then (k, v) else p)
  else m ++ [(k, v)]

/-- The cache lookup of `render` (lines 57-62): an entry is served only if
the cache is enabled, present, and `Date.now() - cached.ts <
this.options.cacheMaxAge`. -/
def cacheLookupTTL (cache : List (String × CacheEntry)) (enabled : Bool)
    (ttl : Int) (key : String) (now : Int) : Option String :=
  if enabled then
    match List.lookup key cache with
    | some e => if now - e.ts < ttl then some e.html else none
    | none => none
  else none

/-- The registry `render` consults: the hot-reload rescan result in
hot-reload mode, the stored map otherwise. -/
def effectiveMap (st : EngineSt) (reloaded : List (String × RegEntry)) :
    List (String × RegEntry) :=
  if st.options.hotReload then reloaded else st.componentMap

/-- Adapter dispatch on the detected framework: the React and Vue paths
call the external framework renderers (`extRender`), the vanilla path is
`_renderVanilla`. -/
def renderFragment (entry : RegEntry)
    (extRender : Framework → JsArt → JsonV → String) (props : JsonV) :
    Except DError String :=
  match entry.framework with
  | .vanilla => renderVanilla entry.module props
  | fw => .ok (extRender fw entry.module props)

/--
The `render(componentName, props)` from `src/examples/domainex.js` (initialised
engine): hot-reload rescan, cache lookup (served on an unexpired hit),
registry lookup (`ComponentNotFoundError` when absent), adapter dispatch,
template application, cache store (when enabled).  Returns the result
together with the cache contents after the call; a thrown error leaves the
cache untouched.
-/
def render (st : EngineSt) (reloaded : List (String × RegEntry))
    (extRender : Framework → JsArt → JsonV → String) (now nowStore : Int)
    (name : String) (props : JsonV) :
    Except DError String × List (String × CacheEntry) :=
  match cacheLookupTTL st.cache st.options.cache st.options.cacheMaxAge
      (cacheKey name props) now with
  | some h => (.ok h, st.cache)
  | none =>
    match List.lookup name (effectiveMap st reloaded) with
    | none => (.error (.componentNotFound name), st.cache)
    | some entry =>
      match renderFragment entry extRender props with
      | .error e => (.error e, st.cache)
      | .ok content =>
        let html := applyTemplate st.template content props
        (.ok html,
          if st.options.cache then
            mapSet st.cache (cacheKey name props) ⟨html, nowStore⟩
          else st.cache)

/-- The `Map.delete`-style removal, used to express "treated as absent". -/
def eraseKey {α : Type} (m : List (String × α)) (k : String) :
    List (String × α) :=
  m.filter (fun p => ¬ p.1 = k)

/-!
## Registry loading

`_loadComponents` of `src/examples/domainex.js` scans the dist directory,
keeps the `.js` files, loads each (the external `require` is the parameter
`loadMod`), classifies it, and builds a **fresh** map which then replaces
`this.componentMap` in a single assignment.  The older `src/domainex.js`
loader filters `.js` (excluding `.map`), reads the file text, errors when
there is none, and `set`s into the existing map.
-/

/-- The `String.prototype.endsWith`. -/
def strEndsWith (s suffix : String) : Bool :=
  List.isSuffixOf suffix.data s.data

/-- The `path.basename(file, ".js")` for a directory entry ending in `.js`. -/
def stripJs (f : String) : String := f.dropRight 3

/-- The `.js` entries of the directory listing. -/
def jsFilesOf (files : List String) : List String :=
  files.filter (fun f => strEndsWith f ".js")

/-- The `Map.set` each file's entry into a map, keyed by base name. -/
def setFold {α : Type} (ent : String → α) (m : List (String × α)) :
    List String → List (String × α)
  | [] => m
  | f :: t => setFold ent (mapSet m (stripJs f) (ent f)) t

/-- Fold a list of artifact files into a registry map. -/
def regFold (loadMod : String → JsArt) (m : List (String × RegEntry)) :
    List String → List (String × RegEntry) :=
  setFold (fun f => ⟨loadMod f, detectFramework (loadMod f)⟩) m

/-- The fresh `nextMap` built by `_loadComponents`
(`src/examples/domainex.js`): derived from the directory scan alone. -/
def newRegistry (files : List String) (loadMod : String → JsArt) :
    List (String × RegEntry) :=
  regFold loadMod [] (jsFilesOf files)

/-- The `_loadComponents` as a state transformer: the scan result replaces the
prior `componentMap` wholesale (`this.componentMap = nextMap`). -/
def loadComponentsEx (st : EngineSt) (files : List String)
    (loadMod : String → JsArt) : EngineSt :=
  { st with componentMap := newRegistry files loadMod }

/-- An entry of the older registry: the component source text and path. -/
structure OldEntry : Type where
  code : String
  path : String

/-- The older loader's file filter. -/
def oldJsFilter (files : List String) : List String :=
  files.filter (fun f => strEndsWith f ".js" && !(strEndsWith f ".map"))

/-- Fold files into the older registry (`this.componentMap.set(...)`). -/
def oldRegFold (readFile : String → String) (distPath : String)
    (m : List (String × OldEntry)) : List String → List (String × OldEntry) :=
  setFold (fun f => ⟨readFile f, distPath ++ "/" ++ f⟩) m

/-- The `_loadComponents` from the older `src/domainex.js`: errors when the
scan yields no `.js` files, otherwise `set`s each component into the
**existing** map. -/
def loadComponentsOld (old : List (String × OldEntry)) (files : List String)
    (readFile : String → String) (distPath : String) :
    Except DError (List (String × OldEntry)) :=
  let jsFiles := oldJsFilter files
  if jsFiles.isEmpty then .error .noJsFiles
  else .ok (oldRegFold readFile distPath old jsFiles)

/-!
## Specification-side vocabulary

Definitions below restate parts of the specification in order to compare
the code with them: the split of a subject at every (non-overlapping,
left-to-right) occurrence of a token, substring containment, and the
specification's framework-detection decision tree.
-/

/-- Split a subject at every non-overlapping occurrence of `pat`, left to
right (the chunks between the occurrences, in order). -/
def splitOnAux (pat : List Char) : Nat → List Char → List (List Char)
  | _, [] => [[]]
  | 0, c :: t => [c :: t]
  | fuel + 1, c :: t =>
    if pat ≠ [] ∧ pat.isPrefixOf (c :: t) then
      [] :: splitOnAux pat fuel (t.drop (pat.length - 1))
    else (splitOnAux pat fuel t).modifyHead (c :: ·)

/-- Split a subject at every occurrence of `pat`. -/
def splitOnL (pat s : List Char) : List (List Char) :=
  splitOnAux pat s.length s

/-- Interleave a separator between chunks. -/
def joinSep (sep : List Char) : List (List Char) → List Char
  | [] => []
  | [x] => x
  | x :: y :: t => x ++ sep ++ joinSep sep (y :: t)

/-- Does `pat` occur as a contiguous substring of `s`? -/
def containsL (pat s : List Char) : Bool :=
  (listFind pat s).isSome

/-- Does the artifact have a callable `render` member (the specification's
rule 1 guard)? -/
def recordCallableRender : JsArt → Bool
  | .jobj fs =>
    match memberOf "render" fs with
    | some (.jfn _ _ _) => true
    | _ => false
  | _ => false

/-- The name and display name of the artifact when it is itself callable
(rule 2 guard). -/
def callableName : JsArt → Option (String × String)
  | .jfn n d _ => some (n, d)
  | _ => none

/-- The name and display name of a callable `default` member (rule 3
guard). -/
def recordCallableDefault : JsArt → Option (String × String)
  | .jobj fs =>
    match memberOf "default" fs with
    | some (.jfn n d _) => some (n, d)
    | _ => none
  | _ => none

/-- The framework-detection decision tree exactly as the specification
words it: callable `render` member ⇒ FrameworkB (Vue); else callable
artifact ⇒ capital-letter test; else callable `default` member ⇒
capital-letter test on that member; else Plain (vanilla). -/
def detectFrameworkSpec (a : JsArt) : Framework :=
  if recordCallableRender a then .vue
  else
    match callableName a with
    | some (n, d) => if looksLikeReact n d then .react else .vanilla
    | none =>
      match recordCallableDefault a with
      | some (n, d) => if looksLikeReact n d then .react else .vanilla
      | none => .vanilla

/-!
## Properties of the key sort order
-/

theorem lexLe_total : ∀ a b : List Char, lexLe a b = true ∨ lexLe b a = true := by
  intro a
  induction a with
  | nil => intro b; left; rfl
  | cons x xs ih =>
    intro b
    cases b with
    | nil => right; rfl
    | cons y ys =>
      by_cases hxy : x = y
      · subst hxy
        rcases ih ys with h | h
        · left; simpa [lexLe] using h
        · right; simpa [lexLe] using h
      · have hne : x.toNat ≠ y.toNat := by
          intro h
          apply hxy
          cases x; cases y
          simp only [Char.toNat] at h
          congr 1
          exact UInt32.ext h
        have hyx : ¬ y = x := fun e => hxy e.symm
        rcases Nat.lt_or_ge x.toNat y.toNat with h | h
        · left; simp [lexLe, hxy, h]
        · right
          have : y.toNat < x.toNat := lt_of_le_of_ne h (fun e => hne e.symm)
          simp [lexLe, hyx, this]

theorem lexLe_trans : ∀ a b c : List Char,
    lexLe a b = true → lexLe b c = true → lexLe a c = true := by
  intro a
  induction a with
  | nil => intro b c _ _; rfl
  | cons x xs ih =>
    intro b c hab hbc
    cases b with
    | nil => simp [lexLe] at hab
    | cons y ys =>
      cases c with
      | nil => simp [lexLe] at hbc
      | cons z zs =>
        by_cases hxy : x = y <;> by_cases hyz : y = z
        · subst hxy; subst hyz
          simp only [lexLe, if_pos rfl] at hab hbc ⊢
          exact ih ys zs hab hbc
        · subst hxy
          simp only [lexLe, if_pos rfl, if_neg hyz] at hbc ⊢
          exact hbc
        · subst hyz
          simp only [lexLe, if_pos rfl, if_neg hxy] at hab ⊢
          exact hab
        · simp only [lexLe, if_neg hxy, if_neg hyz, decide_eq_true_eq] at hab hbc
          have hlt : x.toNat < z.toNat := lt_trans hab hbc
          have hxz : x ≠ z := by
            intro e; subst e; exact absurd (lt_trans hab hbc) (lt_irrefl _)
          simp [lexLe, hxz, hlt]

theorem lexLe_antisymm : ∀ a b : List Char,
    lexLe a b = true → lexLe b a = true → a = b := by
  intro a
  induction a with
  | nil =>
    intro b _ hba
    cases b with
    | nil => rfl
    | cons y ys => simp [lexLe] at hba
  | cons x xs ih =>
    intro b hab hba
    cases b with
    | nil => simp [lexLe] at hab
    | cons y ys =>
      by_cases hxy : x = y
      · subst hxy
        simp only [lexLe, if_pos rfl] at hab hba
        rw [ih ys hab hba]
      · have hyx : ¬ y = x := fun e => hxy e.symm
        simp only [lexLe, if_neg hxy, if_neg hyx, decide_eq_true_eq] at hab hba
        exact absurd (lt_trans hab hba) (lt_irrefl _)

instance : IsTotal String strLeR :=
  ⟨fun a b => lexLe_total a.data b.data⟩

instance : IsTrans String strLeR :=
  ⟨fun a b c hab hbc => lexLe_trans a.data b.data c.data hab hbc⟩

instance : IsAntisymm String strLeR :=
  ⟨fun a b hab hba => by
    have h := lexLe_antisymm a.data b.data hab hba
    cases a
    cases b
    exact congrArg String.mk h⟩

/-!
## Lookup in permuted association lists
-/

theorem findVal_perm {l1 l2 : List (String × JsonV)} (h : List.Perm l1 l2)
    (hnd : (l1.map Prod.fst).Nodup) (k : String) :
    findVal k l1 = findVal k l2 := by
  induction h with
  | nil => rfl
  | cons x h ih =>
    simp only [findVal]
    split
    · rfl
    · exact ih (by simpa using (List.nodup_cons.mp (by simpa using hnd)).2)
  | swap x y l =>
    have hxy : y.1 ≠ x.1 := by
      simp only [List.map_cons, List.nodup_cons, List.mem_cons] at hnd
      exact fun e => hnd.1 (Or.inl e)
    simp only [findVal]
    by_cases h1 : k = y.1 <;> by_cases h2 : k = x.1
    · exact absurd (h1.symm.trans h2) hxy
    · simp [h1, h2, hxy]
    · simp [h1, h2, Ne.symm hxy]
    · simp [h1, h2]
  | trans h1 h2 ih1 ih2 =>
    have hnd2 := (h1.map Prod.fst).nodup hnd
    exact (ih1 hnd).trans (ih2 hnd2)

theorem sortPairs_perm {l1 l2 : List (String × JsonV)} (h : List.Perm l1 l2)
    (hnd : (l1.map Prod.fst).Nodup) : sortPairs l1 = sortPairs l2 := by
  unfold sortPairs
  have hkeys : List.insertionSort strLeR (l1.map Prod.fst) =
      List.insertionSort strLeR (l2.map Prod.fst) := by
    apply List.eq_of_perm_of_sorted (r := strLeR)
    · exact (List.perm_insertionSort _ _).trans
        ((h.map Prod.fst).trans (List.perm_insertionSort _ _).symm)
    · exact List.sorted_insertionSort _ _
    · exact List.sorted_insertionSort _ _
  rw [hkeys]
  exact List.map_congr_left (fun k _ => by rw [findVal_perm h hnd k])

/-- Permuting the **top-level** keys of the property bag never changes the
stable serialisation. -/
theorem stableStringify_perm {l1 l2 : List (String × JsonV)}
    (h : List.Perm l1 l2) (hnd : (l1.map Prod.fst).Nodup) :
    stableStringify (.obj l1) = stableStringify (.obj l2) := by
  simp only [stableStringify, sortPairs_perm h hnd]

/--
C1 (corrected): for every component name and property bags that are
**top-level** key-order permutations of each other (with the values kept
identical, and keys unique as in every JavaScript object), the cache
fingerprint `_cacheKey` is unchanged.  The claim's stronger form — that
bags whose *nested* object values have permuted keys also collide — is
false (see `cacheKey_nested_perm_counterexample`): `_stableStringify`
sorts only the top-level keys.
-/
theorem cacheKey_top_level_perm (n : String) {l1 l2 : List (String × JsonV)}
    (h : List.Perm l1 l2) (hnd : (l1.map Prod.fst).Nodup) :
    cacheKey n (.obj l1) = cacheKey n (.obj l2) := by
  unfold cacheKey
  rw [stableStringify_perm h hnd]

/-- Witness for `cacheKey_top_level_perm` at a concrete permuted pair. -/
theorem cacheKey_top_level_perm_witness :
    cacheKey "Home" (.obj [("b", .num 1), ("a", .str "x")]) =
      cacheKey "Home" (.obj [("a", .str "x"), ("b", .num 1)]) :=
  cacheKey_top_level_perm "Home" (List.Perm.swap _ _ _) (by decide)

set_option maxRecDepth 100000 in
/-- Counterexample to C1 as stated: two semantically equal property bags
whose nested object value lists its keys in a different order receive
different fingerprints. -/
theorem cacheKey_nested_perm_counterexample :
    cacheKey "A" (.obj [("a", .obj [("x", .num 1), ("y", .num 2)])]) ≠
      cacheKey "A" (.obj [("a", .obj [("y", .num 2), ("x", .num 1)])]) := by
  decide

/-!
## Properties of the replacement primitives
-/

theorem getSubst_no_dollar {rep : List Char} (m pre post : List Char)
    (h : dollarC ∉ rep) : getSubst rep m pre post = rep := by
  induction rep with
  | nil => rfl
  | cons c rest ih =>
    simp only [List.mem_cons, not_or] at h
    have hc : ¬ c = dollarC := fun e => h.1 e.symm
    rw [getSubst.eq_def]
    simp only [if_neg hc]
    rw [ih h.2]

theorem pat_isPrefixOf_append (pat b : List Char) :
    pat.isPrefixOf (pat ++ b) = true :=
  List.isPrefixOf_iff_prefix.mpr (List.prefix_append pat b)

theorem isPrefixOf_cons_ne {hc x : Char} {pt s : List Char} (hne : hc ≠ x) :
    (hc :: pt).isPrefixOf (x :: s) = false := by
  simp [List.isPrefixOf, hne]

theorem listFindAux_append {pat : List Char} {hc : Char} {pt : List Char}
    (hpat : pat = hc :: pt) (b : List Char) :
    ∀ a : List Char, hc ∉ a → ∀ i,
      listFindAux pat (a ++ pat ++ b) i = some (i + a.length) := by
  subst hpat
  intro a
  induction a with
  | nil =>
    intro _ i
    rw [List.nil_append, List.cons_append, listFindAux, ← List.cons_append,
      pat_isPrefixOf_append]
    simp
  | cons x a' ih =>
    intro ha i
    simp only [List.mem_cons, not_or] at ha
    rw [List.cons_append, List.cons_append, listFindAux,
      isPrefixOf_cons_ne ha.1]
    simp only [Bool.false_eq_true, if_false]
    rw [ih ha.2 (i + 1)]
    simp only [List.length_cons]
    congr 1
    omega

theorem listFind_append {pat : List Char} {hc : Char} {pt : List Char}
    (hpat : pat = hc :: pt) {a : List Char} (ha : hc ∉ a) (b : List Char) :
    listFind pat (a ++ pat ++ b) = some a.length := by
  rw [listFind, listFindAux_append hpat b a ha 0]
  simp

theorem take_append_self (a rest : List Char) :
    (a ++ rest).take a.length = a := List.take_left a rest

theorem drop_append2 (a pat b : List Char) :
    (a ++ (pat ++ b)).drop (a.length + pat.length) = b := by
  rw [← List.append_assoc]
  have h : a.length + pat.length = (a ++ pat).length := by simp
  rw [h, List.drop_left]

theorem replaceFirstL_append {pat : List Char} {hc : Char} {pt : List Char}
    (hpat : pat = hc :: pt) {a : List Char} (ha : hc ∉ a) (b rep : List Char) :
    replaceFirstL (a ++ pat ++ b) pat rep =
      a ++ getSubst rep pat a b ++ b := by
  have hfind : listFind pat (a ++ pat ++ b) = some a.length :=
    listFind_append hpat ha b
  rw [replaceFirstL, hfind]
  dsimp only
  have ht : List.take a.length (a ++ pat ++ b) = a := by
    rw [List.append_assoc]
    exact take_append_self a (pat ++ b)
  have hd : List.drop (a.length + pat.length) (a ++ pat ++ b) = b := by
    rw [List.append_assoc]
    exact drop_append2 a pat b
  rw [ht, hd]

theorem replaceFirstL_no_occ {pat s rep : List Char}
    (h : listFind pat s = none) : replaceFirstL s pat rep = s := by
  rw [replaceFirstL, h]

theorem replaceAllAux_no_occ {pat : List Char} {hc : Char} {pt : List Char}
    (hpat : pat = hc :: pt) (rep : List Char) :
    ∀ rem, hc ∉ rem → ∀ fuel done, replaceAllAux pat rep fuel done rem = rem := by
  subst hpat
  intro rem
  induction rem with
  | nil =>
    intro _ fuel done
    cases fuel <;> rfl
  | cons c t ih =>
    intro h fuel done
    simp only [List.mem_cons, not_or] at h
    cases fuel with
    | zero => rfl
    | succ f =>
      rw [replaceAllAux]
      have hcond : ¬ ((hc :: pt) ≠ [] ∧ (hc :: pt).isPrefixOf (c :: t) = true) := by
        intro hcon
        rw [isPrefixOf_cons_ne h.1] at hcon
        exact Bool.false_ne_true hcon.2
      rw [if_neg hcond, ih h.2 f (done ++ [c])]

theorem replaceAllAux_single {pat : List Char} {hc : Char} {pt : List Char}
    (hpat : pat = hc :: pt) (rep : List Char) {b : List Char} (hb : hc ∉ b) :
    ∀ a, hc ∉ a → ∀ fuel done, a.length + pat.length + b.length ≤ fuel →
      replaceAllAux pat rep fuel done (a ++ pat ++ b) =
        a ++ getSubst rep pat (done ++ a) b ++ b := by
  subst hpat
  intro a
  induction a with
  | nil =>
    intro _ fuel done hfuel
    cases fuel with
    | zero =>
      exfalso
      simp only [List.length_nil, List.length_cons] at hfuel
      omega
    | succ f =>
      rw [List.nil_append, List.cons_append, replaceAllAux]
      have hcond : ((hc :: pt) ≠ [] ∧
          (hc :: pt).isPrefixOf (hc :: (pt ++ b)) = true) := by
        refine ⟨by simp, ?_⟩
        rw [← List.cons_append]
        exact pat_isPrefixOf_append _ b
      rw [if_pos hcond]
      have hdrop : (pt ++ b).drop ((hc :: pt).length - 1) = b := by
        simp only [List.length_cons, Nat.add_sub_cancel]
        exact List.drop_left pt b
      rw [hdrop, replaceAllAux_no_occ rfl rep b hb f (done ++ (hc :: pt))]
      simp
  | cons x a' ih =>
    intro ha fuel done hfuel
    simp only [List.mem_cons, not_or] at ha
    cases fuel with
    | zero =>
      exfalso
      simp only [List.length_cons] at hfuel
      omega
    | succ f =>
      have hsub : (x :: a') ++ (hc :: pt) ++ b = x :: (a' ++ (hc :: pt) ++ b) := by
        simp
      rw [hsub, replaceAllAux]
      have hcond : ¬ ((hc :: pt) ≠ [] ∧
          (hc :: pt).isPrefixOf (x :: (a' ++ (hc :: pt) ++ b)) = true) := by
        intro hcon
        rw [isPrefixOf_cons_ne ha.1] at hcon
        exact Bool.false_ne_true hcon.2
      rw [if_neg hcond]
      have hfuel' : a'.length + (hc :: pt).length + b.length ≤ f := by
        simp only [List.length_cons] at hfuel ⊢
        omega
      rw [ih ha.2 f (done ++ [x]) hfuel']
      simp

theorem splitOnAux_ne_nil (pat : List Char) :
    ∀ fuel rem, splitOnAux pat fuel rem ≠ [] := by
  intro fuel
  induction fuel with
  | zero =>
    intro rem
    cases rem <;> simp [splitOnAux]
  | succ f ih =>
    intro rem
    cases rem with
    | nil => simp [splitOnAux]
    | cons c t =>
      rw [splitOnAux]
      split
      · simp
      · have := ih t
        cases h : splitOnAux pat f t with
        | nil => exact absurd h this
        | cons x xs => simp [h]

theorem joinSep_nil_cons {rep : List Char} {L : List (List Char)} (h : L ≠ []) :
    joinSep rep ([] :: L) = rep ++ joinSep rep L := by
  cases L with
  | nil => exact absurd rfl h
  | cons x t => simp [joinSep]

theorem joinSep_modifyHead {rep : List Char} {L : List (List Char)} (c : Char)
    (h : L ≠ []) : joinSep rep (L.modifyHead (c :: ·)) = c :: joinSep rep L := by
  cases L with
  | nil => exact absurd rfl h
  | cons x t =>
    cases t with
    | nil => simp [joinSep, List.modifyHead]
    | cons y t' => simp [joinSep, List.modifyHead]

theorem replaceAllAux_eq_joinSep {pat rep : List Char} (hrep : dollarC ∉ rep) :
    ∀ fuel rem done,
      replaceAllAux pat rep fuel done rem = joinSep rep (splitOnAux pat fuel rem) := by
  intro fuel
  induction fuel with
  | zero =>
    intro rem done
    cases rem <;> rfl
  | succ f ih =>
    intro rem done
    cases rem with
    | nil => rfl
    | cons c t =>
      rw [replaceAllAux, splitOnAux]
      split
      · rw [getSubst_no_dollar _ _ _ hrep]
        rw [ih (t.drop (pat.length - 1)) (done ++ pat)]
        rw [joinSep_nil_cons (splitOnAux_ne_nil pat f _)]
      · rw [ih t (done ++ [c])]
        rw [joinSep_modifyHead c (splitOnAux_ne_nil pat f t)]

/-- The `replaceAll` with a `$`-free replacement is exactly: split the subject
at every occurrence of the pattern and interleave the replacement. -/
theorem replaceAllL_eq_joinSep {pat rep : List Char} (s : List Char)
    (hrep : dollarC ∉ rep) :
    replaceAllL s pat rep = joinSep rep (splitOnL pat s) :=
  replaceAllAux_eq_joinSep hrep s.length s []

theorem listFindAux_none_of_not_mem {pat : List Char} {c : Char}
    (hc : c ∈ pat) : ∀ s, c ∉ s → ∀ i, listFindAux pat s i = none := by
  intro s
  induction s with
  | nil =>
    intro _ i
    rw [listFindAux]
    cases pat with
    | nil => simp at hc
    | cons p ps => simp [List.isPrefixOf]
  | cons x t ih =>
    intro h i
    simp only [List.mem_cons, not_or] at h
    rw [listFindAux]
    have hpre : pat.isPrefixOf (x :: t) = false := by
      cases hv : pat.isPrefixOf (x :: t)
      · rfl
      · exfalso
        have hsub : pat <+: (x :: t) := List.isPrefixOf_iff_prefix.mp hv
        have hmem := hsub.subset hc
        simp only [List.mem_cons] at hmem
        rcases hmem with h1 | h2
        · exact h.1 h1
        · exact h.2 h2
    rw [hpre]
    simp only [Bool.false_eq_true, if_false]
    exact ih h.2 (i + 1)

/-- A pattern containing a character absent from the subject does not
occur in the subject. -/
theorem not_containsL {pat s : List Char} {c : Char} (hc : c ∈ pat)
    (h : c ∉ s) : containsL pat s = false := by
  rw [containsL, listFind, listFindAux_none_of_not_mem hc s h 0]
  rfl

/-- Substitution of the first occurrence, for a subject presented together
with the position of that occurrence (`listFind` locates it exactly as
`String.prototype.replace` does). -/
theorem replaceFirstL_at {pat : List Char} {a b : List Char} (rep : List Char)
    (hfind : listFind pat (a ++ pat ++ b) = some a.length) :
    replaceFirstL (a ++ pat ++ b) pat rep =
      a ++ getSubst rep pat a b ++ b := by
  rw [replaceFirstL, hfind]
  dsimp only
  have ht : List.take a.length (a ++ pat ++ b) = a := by
    rw [List.append_assoc]
    exact take_append_self a (pat ++ b)
  have hd : List.drop (a.length + pat.length) (a ++ pat ++ b) = b := by
    rw [List.append_assoc]
    exact drop_append2 a pat b
  rw [ht, hd]

theorem listFindAux_decomp {pat : List Char} :
    ∀ (s : List Char) (i j : Nat), listFindAux pat s i = some j →
      ∃ u v, s = u ++ pat ++ v := by
  intro s
  induction s with
  | nil =>
    intro i j h
    rw [listFindAux] at h
    cases pat with
    | nil => exact ⟨[], [], rfl⟩
    | cons p ps => simp [List.isPrefixOf] at h
  | cons c t ih =>
    intro i j h
    rw [listFindAux] at h
    split at h
    · rename_i hpre
      obtain ⟨v, hv⟩ := List.isPrefixOf_iff_prefix.mp hpre
      exact ⟨[], v, by simp [hv]⟩
    · obtain ⟨u, v, huv⟩ := ih (i + 1) j h
      exact ⟨c :: u, v, by simp [huv]⟩

/-- An occurring pattern splits the subject. -/
theorem containsL_decomp {pat s : List Char} (h : containsL pat s = true) :
    ∃ u v, s = u ++ pat ++ v := by
  rw [containsL] at h
  cases hval : listFind pat s with
  | none => rw [hval] at h; simp at h
  | some j =>
    rw [listFind] at hval
    exact listFindAux_decomp s 0 j hval

theorem listFindAux_isSome_of_prefix {pat s : List Char}
    (h : pat.isPrefixOf s = true) (i : Nat) :
    (listFindAux pat s i).isSome = true := by
  cases s with
  | nil => rw [listFindAux, h]; rfl
  | cons c t => rw [listFindAux, h]; rfl

theorem listFindAux_isSome_mid {pat : List Char} :
    ∀ (u v : List Char) (i : Nat),
      (listFindAux pat (u ++ pat ++ v) i).isSome = true := by
  intro u
  induction u with
  | nil =>
    intro v i
    rw [List.nil_append]
    exact listFindAux_isSome_of_prefix (pat_isPrefixOf_append pat v) i
  | cons c u' ih =>
    intro v i
    rw [List.cons_append, List.cons_append, listFindAux]
    split
    · rfl
    · exact ih v (i + 1)

/-- A subject exhibiting the pattern contains it. -/
theorem containsL_of_split {pat u v : List Char} :
    containsL pat (u ++ pat ++ v) = true := by
  rw [containsL, listFind]
  exact listFindAux_isSome_mid u v 0

theorem prefix_of_append_eq :
    ∀ (a c b d : List Char), a ++ b = c ++ d → a.length ≤ c.length →
      ∃ e, c = a ++ e ∧ b = e ++ d := by
  intro a
  induction a with
  | nil =>
    intro c b d h _
    exact ⟨c, rfl, by simpa using h⟩
  | cons x a' ih =>
    intro c b d h hlen
    cases c with
    | nil => simp at hlen
    | cons y c' =>
      simp only [List.cons_append, List.cons.injEq] at h
      obtain ⟨e, he1, he2⟩ := ih c' b d h.2 (by simpa using hlen)
      refine ⟨e, ?_, he2⟩
      rw [List.cons_append, ← he1, h.1]

/-- A pattern of the shape `\x7b …mid… \x7d` occurring in `P ++ S ++ Q`
with `\x7b`-free `P` and `\x7d`-free `Q` must occur entirely inside `S`:
its opening brace cannot lie in `P`, its closing brace cannot lie in
`Q`. -/
theorem containsL_append_middle {pat mid P S Q : List Char}
    (hpat : pat = lbraceC :: (mid ++ [rbraceC]))
    (hP : lbraceC ∉ P) (hQ : rbraceC ∉ Q)
    (hS : containsL pat S = false) :
    containsL pat (P ++ S ++ Q) = false := by
  cases hval : containsL pat (P ++ S ++ Q) with
  | false => rfl
  | true =>
    exfalso
    obtain ⟨u, v, huv⟩ := containsL_decomp hval
    rcases Nat.lt_or_ge u.length P.length with hlt | hge
    · -- the opening brace of the occurrence would lie inside P
      have h1 : u ++ (pat ++ v) = P ++ (S ++ Q) := by
        simpa [List.append_assoc] using huv.symm
      obtain ⟨e, he1, he2⟩ := prefix_of_append_eq u P (pat ++ v) (S ++ Q) h1
        (le_of_lt hlt)
      cases e with
      | nil =>
        rw [he1] at hlt
        simp at hlt
      | cons f e' =>
        rw [hpat, List.cons_append] at he2
        simp only [List.cons_append, List.cons.injEq] at he2
        apply hP
        rw [he1, ← he2.1]
        exact List.mem_append_right u (List.mem_cons_self _ _)
    · rcases Nat.lt_or_ge (P.length + S.length) (u.length + pat.length)
        with hlt2 | hle2
      · -- the closing brace of the occurrence would lie inside Q
        have h2 : (P ++ S) ++ Q = (u ++ (lbraceC :: mid)) ++ (rbraceC :: v) := by
          rw [hpat] at huv
          simpa [List.append_assoc] using huv
        obtain ⟨e, he1, he2⟩ := prefix_of_append_eq (P ++ S)
          (u ++ (lbraceC :: mid)) Q (rbraceC :: v) h2
          (by
            rw [hpat] at hlt2
            simp only [List.length_append, List.length_cons, List.length_nil]
              at hlt2 ⊢
            omega)
        apply hQ
        rw [he2]
        exact List.mem_append_right e (List.mem_cons_self _ _)
      · -- the occurrence lies entirely inside S
        have h3 : P ++ (S ++ Q) = u ++ (pat ++ v) := by
          simpa [List.append_assoc] using huv
        obtain ⟨u', hu1, hu2⟩ := prefix_of_append_eq P u (S ++ Q) (pat ++ v)
          h3 hge
        have hu1len : u.length = P.length + u'.length := by
          rw [hu1]
          simp
        have h4 : (u' ++ pat) ++ v = S ++ Q := by
          simpa [List.append_assoc] using hu2.symm
        obtain ⟨w, hw1, _⟩ := prefix_of_append_eq (u' ++ pat) S v Q h4
          (by
            simp only [List.length_append]
            omega)
        have hStrue : containsL pat S = true := by
          rw [hw1, List.append_assoc]
          rw [← List.append_assoc]
          exact containsL_of_split
        rw [hS] at hStrue
        exact absurd hStrue (by decide)

/-!
## Template substitution claims
-/

set_option maxRecDepth 100000 in
/-- Counterexample to C5 as stated: a fragment containing the ECMAScript
replacement pattern `$&` is **not** inserted verbatim — `String.replace`
substitutes the matched token for `$&`, so the rendered document retains a
`\x7b\x7bcontent\x7d\x7d` token instead of the fragment text. -/
theorem content_verbatim_counterexample :
    applyTemplate "A\x7b\x7bcontent\x7d\x7dB" "x$&y" (.obj []) =
        "Ax\x7b\x7bcontent\x7d\x7dyB" ∧
      applyTemplate "A\x7b\x7bcontent\x7d\x7dB" "x$&y" (.obj []) ≠ "Ax$&yB" := by
  constructor
  · decide
  · decide

/--
C5 (corrected): the content substitution step of `_applyTemplate`
replaces exactly the first occurrence of the `\x7b\x7bcontent\x7d\x7d`
token with the rendered fragment, leaving any later occurrence of the
token and all other template text unchanged; the fragment is inserted
verbatim **provided it contains no `$` character** (otherwise the
ECMAScript replacement patterns `$$`, `$&`, `` $` ``, `$'` are
interpreted, see `content_verbatim_counterexample`).  The template is an
arbitrary text `a ++ token ++ b` whose shown occurrence is the first one
(`listFind` returns its index, exactly the occurrence
`String.prototype.replace` selects); `a` and `b` may contain any
characters, braces included.
-/
theorem contentStep_first_occurrence {a b frag : List Char}
    (hfirst : listFind contentTok (a ++ contentTok ++ b) = some a.length)
    (hfrag : dollarC ∉ frag) :
    contentStep (a ++ contentTok ++ b) frag = a ++ frag ++ b := by
  rw [contentStep, replaceFirstL_at frag hfirst,
    getSubst_no_dollar _ _ _ hfrag]

/-- Witness for `contentStep_first_occurrence`: a template whose prefix
contains braces (an inline style block); the fragment lands at the first
token and the second token survives the step. -/
theorem contentStep_first_occurrence_witness :
    contentStep ("<style>h1 \x7b color:red \x7d</style>".data ++ contentTok ++
        ("B".data ++ contentTok)) "<p>hi</p>".data =
      "<style>h1 \x7b color:red \x7d</style>".data ++ "<p>hi</p>".data ++
        ("B".data ++ contentTok) :=
  contentStep_first_occurrence (by decide) (by decide)

set_option maxRecDepth 100000 in
/-- Counterexample to C6 as stated: a title value of `$&` is HTML-escaped
to `$&amp;`, and the `$&` inside that replacement string reproduces the
matched `\x7b\x7btitle\x7d\x7d` token instead of the escaped title. -/
theorem title_escape_counterexample :
    applyTemplate "A\x7b\x7btitle\x7d\x7dB\x7b\x7bcontent\x7d\x7d" ""
        (.obj [("title", .str "$&")]) = "A\x7b\x7btitle\x7d\x7damp;B" ∧
      applyTemplate "A\x7b\x7btitle\x7d\x7dB\x7b\x7bcontent\x7d\x7d" ""
        (.obj [("title", .str "$&")]) ≠ "A$&amp;B" := by
  constructor
  · decide
  · decide

set_option maxRecDepth 400000 in
/--
C6 (corrected): the title substitution step of `_applyTemplate`
replaces **every** occurrence of the `\x7b\x7btitle\x7d\x7d` token with the
HTML-escaped effective title — `props.title` when that property is truthy,
the fixed default `"DomainEx SSR"` otherwise (so also when the property is
present but falsy, e.g. the empty string, not only when absent) — inserted
verbatim provided the escaped value contains no `$` character (otherwise
replacement patterns are interpreted, see `title_escape_counterexample`);
and the payload `<script>alert(1)</script>` appears in a rendered document
only in entity-escaped form.
-/
theorem titleStep_escapes_every_occurrence :
    (∀ s props, dollarC ∉ titleValue props →
        titleStep s props = joinSep (titleValue props) (splitOnL titleTok s)) ∧
    (∀ props t, getField props "title" = .str t → t ≠ "" →
        titleValue props = escapeHtmlL t.data) ∧
    (∀ props, getField props "title" = .undefV →
        titleValue props = escapeHtmlL "DomainEx SSR".data) ∧
    (containsL "<script>alert(1)</script>".data
        (applyTemplateL
          "<html><head><title>\x7b\x7btitle\x7d\x7d</title></head><body><div>\x7b\x7bcontent\x7d\x7d</div></body></html>".data
          "<p>hi</p>".data
          (.obj [("title", .str "<script>alert(1)</script>")])) = false ∧
      containsL "&lt;script&gt;alert(1)&lt;/script&gt;".data
        (applyTemplateL
          "<html><head><title>\x7b\x7btitle\x7d\x7d</title></head><body><div>\x7b\x7bcontent\x7d\x7d</div></body></html>".data
          "<p>hi</p>".data
          (.obj [("title", .str "<script>alert(1)</script>")])) = true) := by
  refine ⟨?_, ?_, ?_, ?_, ?_⟩
  · intro s props hnd
    rw [titleStep, replaceAllL_eq_joinSep s hnd, splitOnL]
  · intro props t h ht
    rw [titleValue, h]
    have htr : jsTruthy (JsonV.str t) = true := by
      simp [jsTruthy, ht]
    rw [jsOr, htr]
    rfl
  · intro props h
    rw [titleValue, h]
    rfl
  · decide
  · decide

/-- Witness for `titleStep_escapes_every_occurrence` at a concrete
template, with both an explicit title and a defaulted one. -/
theorem titleStep_escapes_every_occurrence_witness :
    titleStep "X\x7b\x7btitle\x7d\x7dY\x7b\x7btitle\x7d\x7dZ".data (.obj []) =
        joinSep (titleValue (.obj []))
          (splitOnL titleTok "X\x7b\x7btitle\x7d\x7dY\x7b\x7btitle\x7d\x7dZ".data) ∧
      titleValue (.obj [("title", .str "a&b")]) = escapeHtmlL "a&b".data ∧
      titleValue (.obj [("title", .str "")]) = escapeHtmlL "DomainEx SSR".data := by
  refine ⟨?_, ?_, ?_⟩
  · exact titleStep_escapes_every_occurrence.1 _ _ (by decide)
  · exact titleStep_escapes_every_occurrence.2.1 _ "a&b" rfl (by decide)
  · decide

set_option maxRecDepth 200000 in
/-- Counterexample to C9 as stated: with a fragment consisting of a
`\x7b\x7btitle\x7d\x7d` token and a title value of `$&`, the substituted
replacement re-creates the token, which survives into the final
document. -/
theorem fragment_token_survives_counterexample :
    containsL titleTok
      (applyTemplateL "A\x7b\x7bcontent\x7d\x7dB".data
        "\x7b\x7btitle\x7d\x7d".data (.obj [("title", .str "$&")])) = true := by
  decide

/--
C9 (corrected): the content substitution runs before the title and
description passes, so a `\x7b\x7btitle\x7d\x7d` token inside the rendered
fragment is replaced in the final document by the escaped title value, and
the hydration script carrying the serialised property bag is spliced in
before the document's first `</head>` anchor; the token does not survive —
**provided** the fragment and the escaped title value contain no `$`
(replacement patterns would otherwise re-create the token, see
`fragment_token_survives_counterexample`), the surrounding template text
and the escaped title value contain no brace (token text could otherwise
be re-assembled across substitution boundaries), and the serialised
property bag of the hydration script contains no `$` and does not itself
contain the token text (the script is spliced in verbatim, so a props
string value containing the token re-introduces it).  The template is
`tpre ++ content-token ++ (tmid ++ head-anchor ++ tpost)`, the fragment
`fpre ++ title-token ++ fpost`, and the shown anchor is the document's
first one (`listFind` returns its index).
-/
theorem fragment_tokens_substituted {tpre tmid tpost fpre fpost : List Char}
    (props : JsonV)
    (htpre : lbraceC ∉ tpre) (htmid : lbraceC ∉ tmid)
    (htpost : lbraceC ∉ tpost) (htpost2 : rbraceC ∉ tpost)
    (hfpre : lbraceC ∉ fpre) (hfpost : lbraceC ∉ fpost)
    (hfd : dollarC ∉ fpre) (hfd2 : dollarC ∉ fpost)
    (htv : lbraceC ∉ titleValue props) (htvd : dollarC ∉ titleValue props)
    (hpsd : dollarC ∉ propsScript props)
    (hpst : containsL titleTok (propsScript props) = false)
    (hfind : listFind headTok
      ((tpre ++ fpre ++ titleValue props ++ fpost ++ tmid) ++ headTok ++ tpost)
        = some (tpre ++ fpre ++ titleValue props ++ fpost ++ tmid).length) :
    applyTemplateL (tpre ++ contentTok ++ (tmid ++ headTok ++ tpost))
        (fpre ++ titleTok ++ fpost) props =
      (tpre ++ fpre ++ titleValue props ++ fpost ++ tmid) ++
        (propsScript props ++ Char.ofNat 10 :: headTok) ++ tpost ∧
      containsL titleTok
        (applyTemplateL (tpre ++ contentTok ++ (tmid ++ headTok ++ tpost))
          (fpre ++ titleTok ++ fpost) props) = false := by
  have hpatC : contentTok =
      lbraceC :: ([lbraceC] ++ "content".data ++ [rbraceC, rbraceC]) := rfl
  have hpatT : titleTok =
      lbraceC :: ([lbraceC] ++ "title".data ++ [rbraceC, rbraceC]) := rfl
  have hpatD : descTok =
      lbraceC :: ([lbraceC] ++ "description".data ++ [rbraceC, rbraceC]) := rfl
  have hfragD : dollarC ∉ (fpre ++ titleTok ++ fpost) := by
    simp only [List.mem_append, not_or]
    exact ⟨⟨hfd, by decide⟩, hfd2⟩
  have h1 : contentStep (tpre ++ contentTok ++ (tmid ++ headTok ++ tpost))
      (fpre ++ titleTok ++ fpost) =
      tpre ++ (fpre ++ titleTok ++ fpost) ++ (tmid ++ headTok ++ tpost) := by
    rw [contentStep, replaceFirstL_append hpatC htpre (tmid ++ headTok ++ tpost) _,
      getSubst_no_dollar _ _ _ hfragD]
  have hs1 : tpre ++ (fpre ++ titleTok ++ fpost) ++ (tmid ++ headTok ++ tpost) =
      (tpre ++ fpre) ++ titleTok ++ (fpost ++ (tmid ++ headTok ++ tpost)) := by
    simp [List.append_assoc]
  have hbpre : lbraceC ∉ (tpre ++ fpre) := by
    simp only [List.mem_append, not_or]
    exact ⟨htpre, hfpre⟩
  have hbpost : lbraceC ∉ (fpost ++ (tmid ++ headTok ++ tpost)) := by
    simp only [List.mem_append, not_or]
    exact ⟨hfpost, ⟨htmid, by decide⟩, htpost⟩
  have h2 : titleStep
      ((tpre ++ fpre) ++ titleTok ++ (fpost ++ (tmid ++ headTok ++ tpost)))
      props =
      (tpre ++ fpre) ++ titleValue props ++
        (fpost ++ (tmid ++ headTok ++ tpost)) := by
    rw [titleStep, replaceAllL,
      replaceAllAux_single hpatT (titleValue props) hbpost (tpre ++ fpre) hbpre
        _ [] (by simp only [List.length_append]; omega),
      getSubst_no_dollar _ _ _ htvd]
  have hout : lbraceC ∉
      ((tpre ++ fpre) ++ titleValue props ++
        (fpost ++ (tmid ++ headTok ++ tpost))) := by
    simp only [List.mem_append, not_or]
    exact ⟨⟨⟨htpre, hfpre⟩, htv⟩, hfpost, ⟨htmid, by decide⟩, htpost⟩
  have h3 : descStep
      ((tpre ++ fpre) ++ titleValue props ++
        (fpost ++ (tmid ++ headTok ++ tpost))) props =
      (tpre ++ fpre) ++ titleValue props ++
        (fpost ++ (tmid ++ headTok ++ tpost)) := by
    rw [descStep, replaceAllL,
      replaceAllAux_no_occ hpatD _ _ hout _ []]
  have hs2 : (tpre ++ fpre) ++ titleValue props ++
      (fpost ++ (tmid ++ headTok ++ tpost)) =
      (tpre ++ fpre ++ titleValue props ++ fpost ++ tmid) ++ headTok ++ tpost := by
    simp [List.append_assoc]
  have hrepd : dollarC ∉ (propsScript props ++ Char.ofNat 10 :: headTok) := by
    simp only [List.mem_append, List.mem_cons, not_or]
    exact ⟨hpsd, by decide, by decide⟩
  have h4 : headStep
      ((tpre ++ fpre) ++ titleValue props ++
        (fpost ++ (tmid ++ headTok ++ tpost))) props =
      (tpre ++ fpre ++ titleValue props ++ fpost ++ tmid) ++
        (propsScript props ++ Char.ofNat 10 :: headTok) ++ tpost := by
    rw [headStep, hs2, replaceFirstL_at _ hfind,
      getSubst_no_dollar _ _ _ hrepd]
  have heq : applyTemplateL (tpre ++ contentTok ++ (tmid ++ headTok ++ tpost))
      (fpre ++ titleTok ++ fpost) props =
      (tpre ++ fpre ++ titleValue props ++ fpost ++ tmid) ++
        (propsScript props ++ Char.ofNat 10 :: headTok) ++ tpost := by
    rw [applyTemplateL, h1, hs1, h2, h3, h4]
  refine ⟨heq, ?_⟩
  rw [heq]
  have htokshape : titleTok =
      lbraceC :: (([lbraceC] ++ "title".data ++ [rbraceC]) ++ [rbraceC]) := by
    decide
  have hPfree : lbraceC ∉ (tpre ++ fpre ++ titleValue props ++ fpost ++ tmid) := by
    simp only [List.mem_append, not_or]
    exact ⟨⟨⟨⟨htpre, hfpre⟩, htv⟩, hfpost⟩, htmid⟩
  have hQfree : rbraceC ∉ (Char.ofNat 10 :: (headTok ++ tpost)) := by
    simp only [List.mem_cons, List.mem_append, not_or]
    exact ⟨by decide, by decide, htpost2⟩
  have hform : (tpre ++ fpre ++ titleValue props ++ fpost ++ tmid) ++
      (propsScript props ++ Char.ofNat 10 :: headTok) ++ tpost =
      (tpre ++ fpre ++ titleValue props ++ fpost ++ tmid) ++
        propsScript props ++ (Char.ofNat 10 :: (headTok ++ tpost)) := by
    simp [List.append_assoc]
  rw [hform]
  exact containsL_append_middle htokshape hPfree hQfree hpst

/-- Witness for `fragment_tokens_substituted`, on a template carrying the
`</head>` anchor: the fragment's title token is replaced by the (default)
escaped title, the hydration script is spliced in before the anchor, and
the token does not survive. -/
theorem fragment_tokens_substituted_witness :
    applyTemplateL ("A".data ++ contentTok ++
        ("B".data ++ headTok ++ "C".data))
        ("<p>".data ++ titleTok ++ "</p>".data) (.obj []) =
      ("A".data ++ "<p>".data ++ titleValue (.obj []) ++ "</p>".data ++
          "B".data) ++
        (propsScript (.obj []) ++ Char.ofNat 10 :: headTok) ++ "C".data ∧
      containsL titleTok
        (applyTemplateL ("A".data ++ contentTok ++
          ("B".data ++ headTok ++ "C".data))
          ("<p>".data ++ titleTok ++ "</p>".data) (.obj [])) = false :=
  fragment_tokens_substituted (.obj []) (by decide) (by decide) (by decide)
    (by decide) (by decide) (by decide) (by decide) (by decide) (by decide)
    (by decide) (by decide) (by decide) (by decide)

/-!
## Framework detection and the plain adapter
-/

/--
C3 (confirmed): `_detectFramework` is total — it returns exactly one of
Vue (FrameworkB), React (FrameworkA) or vanilla (Plain) for every artifact
shape, including records lacking both `render` and `default` — and follows
the specified precedence: a record with a callable `render` member is Vue;
else a callable artifact is React exactly when its name or display name
starts with a capital letter and vanilla otherwise; else a record with a
callable `default` member is classified by the same capital-letter test on
that member; else vanilla.
-/
theorem detectFramework_total_and_tree (a : JsArt) :
    (detectFramework a = .vue ∨ detectFramework a = .react ∨
      detectFramework a = .vanilla) ∧
    detectFramework a = detectFrameworkSpec a := by
  constructor
  · cases h : detectFramework a with
    | vue => exact Or.inl rfl
    | react => exact Or.inr (Or.inl rfl)
    | vanilla => exact Or.inr (Or.inr rfl)
  · cases a with
    | jfn n d f => rfl
    | jprim b => rfl
    | jobj fields =>
      rcases hr : memberOf "render" fields with _ | v
      · rcases hd : memberOf "default" fields with _ | w
        · simp [detectFramework, detectFrameworkSpec, recordCallableRender,
            callableName, recordCallableDefault, hr, hd]
        · cases w <;>
            simp [detectFramework, detectFrameworkSpec, recordCallableRender,
              callableName, recordCallableDefault, hr, hd]
      · cases v with
        | jfn n d f =>
          simp [detectFramework, detectFrameworkSpec, recordCallableRender,
            callableName, recordCallableDefault, hr]
        | jobj fs =>
          rcases hd : memberOf "default" fields with _ | w
          · simp [detectFramework, detectFrameworkSpec, recordCallableRender,
              callableName, recordCallableDefault, hr, hd]
          · cases w <;>
              simp [detectFramework, detectFrameworkSpec, recordCallableRender,
                callableName, recordCallableDefault, hr, hd]
        | jprim bb =>
          rcases hd : memberOf "default" fields with _ | w
          · simp [detectFramework, detectFrameworkSpec, recordCallableRender,
              callableName, recordCallableDefault, hr, hd]
          · cases w <;>
              simp [detectFramework, detectFrameworkSpec, recordCallableRender,
                callableName, recordCallableDefault, hr, hd]

/--
C4 (code bug): the plain-adapter string contract holds in the
refactored adapter but not in the older one.  For a vanilla component whose
function returns the number `42`, `_renderVanilla`
(`src/examples/domainex.js`) fails with the type-contract error as the
specification requires, while `_renderVanillaComponent`
(`src/domainex.js`, lines 278-301) returns the non-string value as a
success — no `TypeContractError` is raised, and the raw value is later
coerced into the document by the template `replace` call.
-/
theorem vanilla_string_contract_divergence :
    renderVanilla (.jfn "f" "" (fun _ => .ret (.snum 42))) (.obj []) =
        .error .typeContract ∧
      renderVanillaComponentOld (.jfn "f" "" (fun _ => .ret (.snum 42)))
        (.obj []) = .ok (.snum 42) :=
  ⟨rfl, rfl⟩

/--
C10 (confirmed): the plain adapter `await`s the component's result
before the string check, so the check applies to the settled value: a
component returning a promise that resolves to a string renders
successfully with that string, while any settled non-string value —
including a function — fails with the type-contract error.
-/
theorem renderVanilla_checks_settled_value (name dn : String)
    (f : JsonV → CompRet) (props : JsonV) :
    (∀ s, settle (f props) = .sstr s →
        renderVanilla (.jfn name dn f) props = .ok s) ∧
    ((∀ s, settle (f props) ≠ .sstr s) →
        renderVanilla (.jfn name dn f) props = .error .typeContract) := by
  constructor
  · intro s h
    simp [renderVanilla, unwrapDefault, h]
  · intro h
    cases hs : settle (f props) with
    | sstr s => exact absurd hs (h s)
    | snum n => simp [renderVanilla, unwrapDefault, hs]
    | sbool b => simp [renderVanilla, unwrapDefault, hs]
    | snull => simp [renderVanilla, unwrapDefault, hs]
    | sundefV => simp [renderVanilla, unwrapDefault, hs]
    | sobj => simp [renderVanilla, unwrapDefault, hs]
    | sfun => simp [renderVanilla, unwrapDefault, hs]

/-- Witness for `renderVanilla_checks_settled_value`: a promise resolving
to a string succeeds with that string; a promise resolving to a number and
a function-valued result both fail the contract. -/
theorem renderVanilla_checks_settled_value_witness :
    renderVanilla (.jfn "comp" "" (fun _ => .retPromise (.sstr "<p>ok</p>")))
        (.obj []) = .ok "<p>ok</p>" ∧
      renderVanilla (.jfn "comp" "" (fun _ => .retPromise (.snum 3)))
        (.obj []) = .error .typeContract ∧
      renderVanilla (.jfn "comp" "" (fun _ => .ret .sfun))
        (.obj []) = .error .typeContract := by
  refine ⟨?_, ?_, ?_⟩
  · exact (renderVanilla_checks_settled_value "comp" "" _ _).1 "<p>ok</p>" rfl
  · exact (renderVanilla_checks_settled_value "comp" "" _ _).2
      (fun s h => by exact absurd h (by simp [settle]))
  · exact (renderVanilla_checks_settled_value "comp" "" _ _).2
      (fun s h => by exact absurd h (by simp [settle]))

/-!
## Cache TTL and missing-component behaviour of `render`
-/

theorem lookup_eraseKey {α : Type} (k : String) :
    ∀ m : List (String × α), List.lookup k (eraseKey m k) = none := by
  intro m
  induction m with
  | nil => rfl
  | cons p t ih =>
    obtain ⟨k', v⟩ := p
    rw [eraseKey] at ih ⊢
    rw [List.filter_cons]
    by_cases h : k' = k
    · rw [if_neg (by simp [h])]
      exact ih
    · rw [if_pos (by simp [h])]
      have hbeq : (k == k') = false := by simp [Ne.symm h]
      simp only [List.lookup, hbeq]
      exact ih

/--
C2 (confirmed): with caching enabled and a cache entry `⟨h, t⟩` stored
under the fingerprint of `(name, props)` and no intervening `put`, a
`render` call at time `now`:
- whose age `now - t` is less than the configured TTL returns the cached
  document `h` unchanged (and leaves the cache untouched), and
- whose age exceeds the TTL produces exactly the result it would produce
  if the entry were absent (deleted): it re-renders instead of serving the
  stale entry.
-/
theorem render_cache_ttl (st : EngineSt) (reloaded : List (String × RegEntry))
    (extRender : Framework → JsArt → JsonV → String) (now nowStore : Int)
    (name : String) (props : JsonV) (h : String) (t : Int)
    (hen : st.options.cache = true)
    (hl : List.lookup (cacheKey name props) st.cache = some ⟨h, t⟩) :
    (now - t < st.options.cacheMaxAge →
      render st reloaded extRender now nowStore name props = (.ok h, st.cache)) ∧
    (st.options.cacheMaxAge < now - t →
      (render st reloaded extRender now nowStore name props).1 =
        (render { st with cache := eraseKey st.cache (cacheKey name props) }
          reloaded extRender now nowStore name props).1) := by
  constructor
  · intro hlt
    have hhit : cacheLookupTTL st.cache st.options.cache st.options.cacheMaxAge
        (cacheKey name props) now = some h := by
      rw [cacheLookupTTL, hen]
      simp only [if_true]
      rw [hl]
      simp [hlt]
    simp only [render, hhit]
  · intro hgt
    have hstale : cacheLookupTTL st.cache st.options.cache st.options.cacheMaxAge
        (cacheKey name props) now = none := by
      rw [cacheLookupTTL, hen]
      simp only [if_true]
      rw [hl]
      simp only [ite_eq_right_iff]
      intro hcon
      exact absurd hcon (not_lt.mpr (le_of_lt hgt))
    have herased : cacheLookupTTL (eraseKey st.cache (cacheKey name props))
        st.options.cache st.options.cacheMaxAge (cacheKey name props) now = none := by
      rw [cacheLookupTTL, hen]
      simp only [if_true]
      rw [lookup_eraseKey]
    simp only [render, hstale, herased, effectiveMap]
    cases hlook : List.lookup name
        (if st.options.hotReload then reloaded else st.componentMap) with
    | none => rfl
    | some entry =>
      dsimp only
      cases hfrag : renderFragment entry extRender props with
      | error e => rfl
      | ok content => rfl

/-- Witness for `render_cache_ttl`: a concrete engine serves a fresh cache
entry unchanged, and a stale entry yields the same result as an absent
one. -/
theorem render_cache_ttl_witness :
    (render
      { options := { cache := true, cacheMaxAge := 100, hotReload := false },
        template := "T\x7b\x7bcontent\x7d\x7d",
        componentMap := [],
        cache := [(cacheKey "Home" (.obj []), ⟨"CACHED", 0⟩)] }
      [] (fun _ _ _ => "") 50 50 "Home" (.obj []) =
        (.ok "CACHED", [(cacheKey "Home" (.obj []), ⟨"CACHED", 0⟩)])) ∧
    ((render
      { options := { cache := true, cacheMaxAge := 100, hotReload := false },
        template := "T\x7b\x7bcontent\x7d\x7d",
        componentMap := [],
        cache := [(cacheKey "Home" (.obj []), ⟨"CACHED", 0⟩)] }
      [] (fun _ _ _ => "") 500 500 "Home" (.obj [])).1 =
        (render
          { options := { cache := true, cacheMaxAge := 100, hotReload := false },
            template := "T\x7b\x7bcontent\x7d\x7d",
            componentMap := [],
            cache := eraseKey [(cacheKey "Home" (.obj []), ⟨"CACHED", 0⟩)]
              (cacheKey "Home" (.obj []))}
          [] (fun _ _ _ => "") 500 500 "Home" (.obj [])).1) := by
  constructor
  · exact (render_cache_ttl _ _ _ 50 50 "Home" (.obj []) "CACHED" 0 rfl
      (by simp [List.lookup])).1 (by norm_num)
  · exact (render_cache_ttl _ _ _ 500 500 "Home" (.obj []) "CACHED" 0 rfl
      (by simp [List.lookup])).2 (by norm_num)

/--
C7 (confirmed): when the requested component name is absent from the
effective registry and no unexpired cache entry exists for the fingerprint
of `(name, props)`, `render` fails with the component-not-found error —
an error result surfaced to the caller — and the cache contents are
unchanged by the failed call.
-/
theorem render_missing_component (st : EngineSt)
    (reloaded : List (String × RegEntry))
    (extRender : Framework → JsArt → JsonV → String) (now nowStore : Int)
    (name : String) (props : JsonV)
    (hmiss : cacheLookupTTL st.cache st.options.cache st.options.cacheMaxAge
      (cacheKey name props) now = none)
    (habs : List.lookup name (effectiveMap st reloaded) = none) :
    render st reloaded extRender now nowStore name props =
      (.error (.componentNotFound name), st.cache) := by
  simp only [render, hmiss, habs]

/-- Witness for `render_missing_component`: rendering a name with an empty
registry and cache fails with the component-not-found error and leaves the
(empty) cache unchanged. -/
theorem render_missing_component_witness :
    render
      { options := { cache := true, cacheMaxAge := 100, hotReload := false },
        template := "T\x7b\x7bcontent\x7d\x7d",
        componentMap := [],
        cache := [] }
      [] (fun _ _ _ => "") 0 0 "Missing" (.obj []) =
      (.error (.componentNotFound "Missing"), []) :=
  render_missing_component _ _ _ 0 0 "Missing" (.obj []) rfl rfl

/-!
## Registry replacement on load
-/

theorem lookup_isSome_iff_mem {α : Type} (n : String) :
    ∀ m : List (String × α),
      (List.lookup n m).isSome = true ↔ n ∈ m.map Prod.fst := by
  intro m
  induction m with
  | nil => simp [List.lookup]
  | cons p t ih =>
    obtain ⟨k, v⟩ := p
    by_cases h : n = k
    · subst h
      simp [List.lookup]
    · have hbeq : (n == k) = false := by simp [h]
      simp only [List.lookup, hbeq, List.map_cons, List.mem_cons]
      rw [ih]
      constructor
      · exact Or.inr
      · rintro (h1 | h2)
        · exact absurd h1 h
        · exact h2

theorem mapSet_keys {α : Type} (k : String) (v : α) :
    ∀ m : List (String × α), (mapSet m k v).map Prod.fst =
      if k ∈ m.map Prod.fst then m.map Prod.fst else m.map Prod.fst ++ [k] := by
  intro m
  rw [mapSet]
  by_cases h : k ∈ m.map Prod.fst
  · have hany : m.any (fun p => p.1 == k) = true := by
      rw [List.any_eq_true]
      simp only [List.mem_map] at h
      obtain ⟨p, hp, he⟩ := h
      exact ⟨p, hp, by simp [he]⟩
    rw [if_pos hany, if_pos h, List.map_map]
    apply List.map_congr_left
    intro p _
    by_cases hp : p.1 = k
    · simp [hp]
    · simp [hp]
  · have hany : m.any (fun p => p.1 == k) = false := by
      rw [List.any_eq_false]
      intro p hp
      simp only [beq_iff_eq]
      intro he
      exact h (List.mem_map.mpr ⟨p, hp, he⟩)
    rw [if_neg (by rw [hany]; simp), if_neg h]
    simp

theorem lookup_mapSet_isSome {α : Type} (m : List (String × α)) (k : String)
    (v : α) (n : String) :
    (List.lookup n (mapSet m k v)).isSome = true ↔
      (n = k ∨ (List.lookup n m).isSome = true) := by
  rw [lookup_isSome_iff_mem, lookup_isSome_iff_mem, mapSet_keys]
  by_cases h : k ∈ m.map Prod.fst
  · rw [if_pos h]
    constructor
    · exact Or.inr
    · rintro (h1 | h2)
      · exact h1 ▸ h
      · exact h2
  · rw [if_neg h]
    simp only [List.mem_append, List.mem_singleton]
    exact or_comm

theorem lookup_setFold_isSome {α : Type} (ent : String → α) (n : String) :
    ∀ (fs : List String) (m : List (String × α)),
      (List.lookup n (setFold ent m fs)).isSome = true ↔
        ((List.lookup n m).isSome = true ∨ ∃ f ∈ fs, stripJs f = n) := by
  intro fs
  induction fs with
  | nil =>
    intro m
    simp [setFold]
  | cons f t ih =>
    intro m
    rw [setFold, ih, lookup_mapSet_isSome]
    constructor
    · rintro ((h1 | h2) | h3)
      · exact Or.inr ⟨f, List.mem_cons_self f t, h1.symm⟩
      · exact Or.inl h2
      · obtain ⟨g, hg, he⟩ := h3
        exact Or.inr ⟨g, List.mem_cons_of_mem f hg, he⟩
    · rintro (h1 | h2)
      · exact Or.inl (Or.inr h1)
      · obtain ⟨g, hg, he⟩ := h2
        rcases List.mem_cons.mp hg with rfl | hgt
        · exact Or.inl (Or.inl he.symm)
        · exact Or.inr ⟨g, hgt, he⟩

/--
C8 (confirmed): after a registry load the registry's entries are
exactly those derived from the artifact files of that directory scan:
(1) the hot-reload-capable loader of `src/examples/domainex.js` installs
the freshly built `nextMap` wholesale, regardless of the prior registry
(single assignment, so callers never observe a mix of load cycles);
(2) a name is present in the new registry exactly when the scan contains a
`.js` file with that base name — so any component whose file is no longer
in the directory is absent afterwards; and
(3) the startup-time loader of `src/domainex.js`, which populates the
initially empty registry, errors on an empty scan and otherwise yields
exactly the scan-derived names.
-/
theorem registry_wholesale_replacement (files : List String)
    (loadMod : String → JsArt) (readFile : String → String)
    (distPath : String) :
    (∀ st : EngineSt, (loadComponentsEx st files loadMod).componentMap =
        newRegistry files loadMod) ∧
    (∀ n, (List.lookup n (newRegistry files loadMod)).isSome = true ↔
        ∃ f ∈ files, strEndsWith f ".js" = true ∧ stripJs f = n) ∧
    (oldJsFilter files ≠ [] →
      ∃ reg, loadComponentsOld [] files readFile distPath = .ok reg ∧
        ∀ n, (List.lookup n reg).isSome = true ↔
          ∃ f ∈ files,
            (strEndsWith f ".js" && !(strEndsWith f ".map")) = true ∧
            stripJs f = n) := by
  refine ⟨fun _ => rfl, ?_, ?_⟩
  · intro n
    rw [newRegistry, regFold, lookup_setFold_isSome]
    simp only [List.lookup, Option.isSome_none, Bool.false_eq_true, false_or]
    constructor
    · rintro ⟨f, hf, he⟩
      rw [jsFilesOf] at hf
      obtain ⟨hmem, hp⟩ := List.mem_filter.mp hf
      exact ⟨f, hmem, hp, he⟩
    · rintro ⟨f, hf, hp, he⟩
      exact ⟨f, List.mem_filter.mpr ⟨hf, hp⟩, he⟩
  · intro hne
    rw [loadComponentsOld]
    have hempty : (oldJsFilter files).isEmpty = false := by
      cases hval : oldJsFilter files with
      | nil => exact absurd hval hne
      | cons a b => rfl
    rw [hempty]
    simp only [Bool.false_eq_true, if_false]
    refine ⟨_, rfl, ?_⟩
    intro n
    rw [oldRegFold, lookup_setFold_isSome]
    simp only [List.lookup, Option.isSome_none, Bool.false_eq_true, false_or]
    constructor
    · rintro ⟨f, hf, he⟩
      rw [oldJsFilter] at hf
      obtain ⟨hmem, hp⟩ := List.mem_filter.mp hf
      exact ⟨f, hmem, hp, he⟩
    · rintro ⟨f, hf, hp, he⟩
      exact ⟨f, List.mem_filter.mpr ⟨hf, hp⟩, he⟩

/-- Witness for `registry_wholesale_replacement`: a scan containing
`Home.js` and `notes.txt` yields a registry containing exactly `Home`, and
a rescan without the file loses the entry. -/
theorem registry_wholesale_replacement_witness :
    (List.lookup "Home"
      (newRegistry ["Home.js", "notes.txt"] (fun _ => .jprim true))).isSome
        = true ∧
    ¬ (List.lookup "About"
      (newRegistry ["Home.js", "notes.txt"] (fun _ => .jprim true))).isSome
        = true ∧
    ¬ (List.lookup "Home"
      (newRegistry ["notes.txt"] (fun _ => .jprim true))).isSome = true ∧
    (∃ reg, loadComponentsOld [] ["Home.js"] (fun _ => "code") "dist" =
        .ok reg ∧ (List.lookup "Home" reg).isSome = true) := by
  refine ⟨?_, ?_, ?_, ?_⟩
  · exact (registry_wholesale_replacement ["Home.js", "notes.txt"]
      (fun _ => .jprim true) (fun _ => "") "").2.1 "Home" |>.mpr
      ⟨"Home.js", by simp, by decide, by decide⟩
  · intro hcon
    have h := (registry_wholesale_replacement ["Home.js", "notes.txt"]
      (fun _ => .jprim true) (fun _ => "") "").2.1 "About" |>.mp hcon
    obtain ⟨f, hf, hp, he⟩ := h
    simp only [List.mem_cons, List.not_mem_nil, or_false] at hf
    rcases hf with h1 | h2
    · rw [h1] at he
      exact absurd he (by decide)
    · rw [h2] at hp
      exact absurd hp (by decide)
  · intro hcon
    have h := (registry_wholesale_replacement ["notes.txt"]
      (fun _ => .jprim true) (fun _ => "") "").2.1 "Home" |>.mp hcon
    obtain ⟨f, hf, hp, he⟩ := h
    simp only [List.mem_cons, List.not_mem_nil, or_false] at hf
    rw [hf] at hp
    exact absurd hp (by decide)
  · obtain ⟨reg, hreg, hiff⟩ := (registry_wholesale_replacement ["Home.js"]
      (fun _ => .jprim true) (fun _ => "code") "dist").2.2 (by decide)
    exact ⟨reg, hreg, (hiff "Home").mpr ⟨"Home.js", by simp, by decide, by decide⟩⟩

end DomainEx

